import Mathlib

/-!
# novikoff-vvs/logger: a verification development

A shallow embedding of `logger.go` (`NewZapLogger`, `ZapLogger.Info/Error/Debug/Println/Printf`)
and `helpers/os.go` (`EnsureDir`), together with the parts of the Go standard library and of
`go.uber.org/zap` that these functions call:

* `path/filepath` (Unix): `Clean`, `Join`, `Dir`, on the characters of a string;
* `os`: a filesystem state keyed by lexically cleaned paths, `MkdirAll`, `OpenFile`, `ReadFile`;
* `fmt`: `Sprintln` on a small value type; `Sprintf` is a parameter of `Printf`;
* `zapcore` / `zap`: levels, level enablers, io cores, tees, `Config.Build`, `Logger.Info/...`.

Go strings are modelled by Lean `String`; the separator `/` and the dot are ASCII, so working on
characters instead of bytes does not change what `Clean` does on valid UTF-8.
`zapcore.Level` (an `int8`) is modelled by `Int`.
Logging calls return the list of writes they perform (which sink received which record).
-/

set_option autoImplicit false

/-! ## path/filepath -/

namespace filepath

/-- Unix `os.IsPathSeparator`: `c == '/'`. -/
def IsPathSeparator (c : Char) : Bool := c == '/'

/-- The test `r == n || os.IsPathSeparator(path[r])` on the unread part `path[r:]`. -/
def atEndOrSeparator : List Char → Bool
  | [] => true
  | c :: _ => IsPathSeparator c

/-- The inner loop of the `..` case of `Clean`, started after `out.w--`:
`for out.w > dotdot && !os.IsPathSeparator(out.index(out.w)) { out.w-- }`, as the final `w`. -/
def backtrack (buf : List Char) (dotdot : Nat) : Nat → Nat
  | 0 => 0
  | w + 1 =>
    if w + 1 > dotdot && !IsPathSeparator (buf.getD (w + 1) '/') then backtrack buf dotdot w
    else w + 1

/-- The main loop `for r < n` of `filepath.Clean`. The unread input `path[r:]` is the list
argument, the state is `(out, dotdot)` with `out` the written part `buf[:w]` of the lazy buffer.
Every iteration consumes at least one character, so `fuel = len(path)` is enough. -/
def cleanLoop (rooted : Bool) : Nat → List Char → List Char × Nat → List Char × Nat
  | 0, _, st => st
  | _ + 1, [], st => st
  | fuel + 1, c :: t, (out, dotdot) =>
    if IsPathSeparator c then
      -- empty path element
      cleanLoop rooted fuel t (out, dotdot)
    else if c == '.' && atEndOrSeparator t then
      -- . element
      cleanLoop rooted fuel t (out, dotdot)
    else if c == '.' && t.head? == some '.' && atEndOrSeparator t.tail then
      -- .. element: remove to last separator
      if out.length > dotdot then
        cleanLoop rooted fuel t.tail (out.take (backtrack out dotdot (out.length - 1)), dotdot)
      else if !rooted then
        let out1 := (if out.length > 0 then out ++ ['/'] else out) ++ ['.', '.']
        cleanLoop rooted fuel t.tail (out1, out1.length)
      else
        cleanLoop rooted fuel t.tail (out, dotdot)
    else
      -- real path element: add slash if needed, copy element
      let out1 :=
        if rooted && out.length != 1 || !rooted && out.length != 0 then out ++ ['/'] else out
      cleanLoop rooted fuel ((c :: t).dropWhile (fun x => !IsPathSeparator x))
        (out1 ++ (c :: t).takeWhile (fun x => !IsPathSeparator x), dotdot)

/-- The body of `filepath.Clean` for a non-empty path (no volume name on Unix). -/
def cleanChars (p : List Char) : List Char :=
  let rooted := match p with
    | [] => false
    | c :: _ => IsPathSeparator c
  let st := if rooted then cleanLoop rooted p.length p.tail (['/'], 1)
            else cleanLoop rooted p.length p ([], 0)
  -- Turn empty string into "."
  if st.1.length = 0 then ['.'] else st.1

/-- Go `filepath.Clean` on Unix. -/
def Clean (path : String) : String :=
  if path = "" then "." else String.mk (cleanChars path.data)

/-- Go `filepath.Join` on Unix: the first non-empty element and what follows it are joined
with `/` and cleaned; empty leading elements are ignored. -/
def Join : List String → String
  | [] => ""
  | e :: es => if e ≠ "" then Clean ("/".intercalate (e :: es)) else Join es

/-- Characters of `path` up to and including its last separator (`path[:i+1]` in `Dir`). -/
def dirPart (p : List Char) : List Char :=
  (p.reverse.dropWhile (fun x => !IsPathSeparator x)).reverse

/-- Go `filepath.Dir` on Unix. -/
def Dir (path : String) : String := Clean (String.mk (dirPart path.data))

/-- Proof-side: the elements of a path, `strings.Split(path, "/")` on characters. -/
def splitSep : List Char → List (List Char)
  | [] => [[]]
  | c :: t =>
    if IsPathSeparator c then [] :: splitSep t
    else match splitSep t with
      | [] => [[c]]
      | s :: ss => (c :: s) :: ss

/-- Proof-side: what the loop of `Clean` does with one whole path element (shown equal to
`cleanLoop` in `cleanLoop_eq_foldl`). -/
def cleanStep (rooted : Bool) (st : List Char × Nat) (seg : List Char) : List Char × Nat :=
  if seg = [] then st
  else if seg = ['.'] then st
  else if seg = ['.', '.'] then
    if st.1.length > st.2 then
      (st.1.take (backtrack st.1 st.2 (st.1.length - 1)), st.2)
    else if !rooted then
      let out1 := (if st.1.length > 0 then st.1 ++ ['/'] else st.1) ++ ['.', '.']
      (out1, out1.length)
    else st
  else
    ((if rooted && st.1.length != 1 || !rooted && st.1.length != 0 then st.1 ++ ['/'] else st.1)
      ++ seg, st.2)

/-- Proof-side: the state of `Clean` before its loop; a leading separator is written for a
rooted path. -/
def cleanInit (rooted : Bool) : List Char × Nat := if rooted then (['/'], 1) else ([], 0)

/-- Proof-side: what the elements after a real one add to the output when none of them is
`..`: each real element preceded by a separator. -/
def appended (L : List (List Char)) : List Char :=
  L.flatMap (fun s => if s = [] ∨ s = ['.'] then [] else '/' :: s)

end filepath

/-! ## os -/

namespace os

/-- The error numbers the model can raise. -/
inductive Errno
  | ENOENT
  | EEXIST
  | ENOTDIR
  | EISDIR
  deriving DecidableEq, Repr

/-- Go `*os.PathError`. -/
structure PathError where
  Op : String
  Path : String
  Err : Errno
  deriving DecidableEq, Repr

/-- A filesystem object: a directory, or a regular file with its contents. -/
inductive Node
  | dir (perm : Nat)
  | file (perm : Nat) (content : String)
  deriving DecidableEq, Repr

/-- The filesystem state: the object stored at each lexically cleaned path, if any. There are
no symbolic links and the working directory is fixed, so a cleaned path names one object. -/
abbrev FS := String → Option Node

/-- Go `*os.File` as returned by `OpenFile`: the name it was opened with. -/
structure File where
  name : String
  deriving DecidableEq, Repr

def O_WRONLY : Nat := 0x1
def O_CREATE : Nat := 0x40
def O_EXCL : Nat := 0x80
def O_TRUNC : Nat := 0x200
def O_APPEND : Nat := 0x400

/-- Whether `bit` is set in the flag word. -/
def hasFlag (flag bit : Nat) : Bool := flag &&& bit != 0

/-- The root, the working directory and chains of `..` exist without being stored: a cleaned
path none of whose elements is a real name. -/
def implicitDir (q : String) : Bool :=
  (filepath.splitSep q.data).all (fun s => s == [] || s == ['.'] || s == ['.', '.'])

/-- Whether the cleaned path `q` is a directory in `fs`. -/
def isDir (fs : FS) (q : String) : Bool :=
  implicitDir q || match fs q with
    | some (Node.dir _) => true
    | _ => false

/-- Replace the object at `q`. -/
def FS.set (fs : FS) (q : String) (n : Node) : FS := fun x => if x = q then some n else fs x

/-- The cleaned path `q` and its ancestors, outermost first: for `a/b/c` they are `a`, `a/b`
and `a/b/c`; for `/a/b` they are `/a` and `/a/b`. -/
def ancestorsFrom : List Char → List Char → List String
  | pre, [] => [String.mk pre]
  | pre, c :: t =>
    if filepath.IsPathSeparator c && pre ≠ [] then String.mk pre :: ancestorsFrom (pre ++ [c]) t
    else ancestorsFrom (pre ++ [c]) t

/-- Make the directories in the list, in order: an existing directory is kept, a regular file
in the way stops with ENOTDIR (what is created so far stays), a missing one is created. -/
def mkdirEach (path : String) (perm : Nat) : FS → List String → Option PathError × FS
  | fs, [] => (none, fs)
  | fs, q :: qs =>
    if isDir fs q then mkdirEach path perm fs qs
    else match fs q with
      | some _ => (some ⟨"mkdir", path, Errno.ENOTDIR⟩, fs)
      | none => mkdirEach path perm (fs.set q (Node.dir perm)) qs

/-- Go `os.MkdirAll`: returns at once when `path` is a directory (nil) or another object
(ENOTDIR); otherwise makes the missing ancestors and then `path`. The empty path is ENOENT. -/
def MkdirAll (fs : FS) (path : String) (perm : Nat) : Option PathError × FS :=
  if path = "" then (some ⟨"mkdir", path, Errno.ENOENT⟩, fs)
  else
    let q := filepath.Clean path
    if isDir fs q then (none, fs)
    else match fs q with
      | some _ => (some ⟨"mkdir", path, Errno.ENOTDIR⟩, fs)
      | none => mkdirEach path perm fs (ancestorsFrom [] q.data)

/-- Go `os.OpenFile` for writing: a directory is EISDIR; an existing regular file is opened
(EEXIST under O_CREATE|O_EXCL, emptied under O_TRUNC, otherwise left as it is); a missing file
is created empty under O_CREATE when its parent is a directory, and is ENOENT otherwise. -/
def OpenFile (fs : FS) (name : String) (flag : Nat) (perm : Nat) : Except PathError File × FS :=
  if name = "" then (Except.error ⟨"open", name, Errno.ENOENT⟩, fs)
  else
    let q := filepath.Clean name
    if isDir fs q then (Except.error ⟨"open", name, Errno.EISDIR⟩, fs)
    else match fs q with
      | some (Node.file p _) =>
        if hasFlag flag O_CREATE && hasFlag flag O_EXCL then
          (Except.error ⟨"open", name, Errno.EEXIST⟩, fs)
        else if hasFlag flag O_TRUNC then (Except.ok ⟨name⟩, fs.set q (Node.file p ""))
        else (Except.ok ⟨name⟩, fs)
      | some (Node.dir _) => (Except.error ⟨"open", name, Errno.EISDIR⟩, fs)
      | none =>
        if hasFlag flag O_CREATE then
          if isDir fs (filepath.Dir q) then (Except.ok ⟨name⟩, fs.set q (Node.file perm ""))
          else match fs (filepath.Dir q) with
            | some _ => (Except.error ⟨"open", name, Errno.ENOTDIR⟩, fs)
            | none => (Except.error ⟨"open", name, Errno.ENOENT⟩, fs)
        else (Except.error ⟨"open", name, Errno.ENOENT⟩, fs)

/-- Go `os.ReadFile`, without its error: the contents of the regular file at `name`. -/
def ReadFile (fs : FS) (name : String) : Option String :=
  match fs (filepath.Clean name) with
  | some (Node.file _ c) => some c
  | _ => none

end os

/-- A Go `error` value as `NewZapLogger` can return it. -/
inductive GoError
  | pathError (e : os.PathError)
  | other (msg : String)
  deriving DecidableEq, Repr

/-! ## helpers/os.go -/

namespace helpers

/-- Source `helpers.EnsureDir`: `os.MkdirAll(dir, 0755)`, returning its error. -/
def EnsureDir (fs : os.FS) (dir : String) : Option GoError × os.FS :=
  match os.MkdirAll fs dir 0o755 with
  | (some err, fs1) => (some (GoError.pathError err), fs1)
  | (none, fs1) => (none, fs1)

end helpers

/-! ## fmt -/

namespace fmt

/-- The operands of `Println` and `Printf` (Go `interface{}`), for three kinds of value. -/
inductive Value
  | str (s : String)
  | int (n : Int)
  | bool (b : Bool)
  deriving DecidableEq, Repr

/-- The default format (`%v`) of an operand. -/
def printArg : Value → String
  | Value.str s => s
  | Value.int n => toString n
  | Value.bool b => if b then "true" else "false"

/-- The loop of `doPrintln`: a space before every operand but the first. -/
def doPrintln : Nat → List Value → String
  | _, [] => ""
  | argNum, a :: rest => (if argNum > 0 then " " else "") ++ printArg a ++ doPrintln (argNum + 1) rest

/-- Go `fmt.Sprintln`: the operands in default format, separated by spaces, then a newline. -/
def Sprintln (a : List Value) : String := doPrintln 0 a ++ "\n"

end fmt

/-! ## zapcore and zap -/

namespace zapcore

/-- Go `zapcore.Level`. -/
abbrev Level := Int

def DebugLevel : Level := -1
def InfoLevel : Level := 0
def WarnLevel : Level := 1
def ErrorLevel : Level := 2
def DPanicLevel : Level := 3
def PanicLevel : Level := 4
def FatalLevel : Level := 5

/-- Go `zapcore.Level.Enabled`: `lvl >= l`. -/
def Level.Enabled (l lvl : Level) : Bool := decide (lvl ≥ l)

/-- A structured field of a record. -/
structure Field where
  Key : String
  Value : String
  deriving DecidableEq, Repr

/-- A log record: level, message and fields (time and caller are not modelled). -/
structure Entry where
  Level : Level
  Message : String
  Fields : List Field
  deriving DecidableEq, Repr

/-- Where a core writes: a standard stream or an open file. -/
inductive WriteSyncer
  | stdout
  | stderr
  | file (f : os.File)
  deriving DecidableEq, Repr

/-- Go `zapcore.AddSync` of an open file. -/
def AddSync (f : os.File) : WriteSyncer := WriteSyncer.file f

/-- One write: the sink and the record encoded into it. -/
structure Write where
  sink : WriteSyncer
  entry : Entry
  deriving DecidableEq, Repr

/-- Go `zapcore.ioCore`: a level enabler and an output (the JSON encoder is not modelled). -/
structure ioCore where
  enab : Level → Bool
  out : WriteSyncer

/-- Go `zapcore.Core`: an io core, or a tee of cores, flattened to the list of its io cores. -/
abbrev Core := List ioCore

/-- Go `zapcore.NewCore(enc, ws, enab)`. -/
def NewCore (ws : WriteSyncer) (enab : Level → Bool) : Core := [⟨enab, ws⟩]

/-- Go `zapcore.NewTee`. -/
def NewTee (cores : List Core) : Core := cores.flatten

/-- Go `ioCore.Check` then `Write`: the core writes the entry iff its enabler accepts the level. -/
def ioCore.Write (c : ioCore) (ent : Entry) : List Write :=
  if c.enab ent.Level then [⟨c.out, ent⟩] else []

end zapcore

namespace zap

export zapcore (DebugLevel InfoLevel WarnLevel ErrorLevel)

/-- Go `*zap.Logger`. -/
structure Logger where
  core : zapcore.Core
  errorOutput : zapcore.WriteSyncer

/-- Go `zap.New(core)`: internal errors go to standard error. -/
def New (core : zapcore.Core) : Logger := ⟨core, zapcore.WriteSyncer.stderr⟩

/-- Go `zap.LevelEnablerFunc`. -/
def LevelEnablerFunc (f : zapcore.Level → Bool) : zapcore.Level → Bool := f

/-- Go `zap.AtomicLevel`; `none` is the zero value. -/
abbrev AtomicLevel := Option zapcore.Level

/-- Go `zap.NewAtomicLevelAt`. -/
def NewAtomicLevelAt (l : zapcore.Level) : AtomicLevel := some l

/-- Go `zap.Config`, the fields the source sets. -/
structure Config where
  Encoding : String
  Level : AtomicLevel
  OutputPaths : List String
  ErrorOutputPaths : List String

/-- Go `zap.Open` for one path: `stdout` and `stderr` are the standard streams, any other path
is a file opened with `O_WRONLY|O_APPEND|O_CREATE` and mode 0666. -/
def openSink (fs : os.FS) (path : String) : Except GoError zapcore.WriteSyncer × os.FS :=
  if path = "stdout" then (Except.ok zapcore.WriteSyncer.stdout, fs)
  else if path = "stderr" then (Except.ok zapcore.WriteSyncer.stderr, fs)
  else match os.OpenFile fs path (os.O_WRONLY ||| os.O_APPEND ||| os.O_CREATE) 0o666 with
    | (Except.ok f, fs1) => (Except.ok (zapcore.WriteSyncer.file f), fs1)
    | (Except.error e, fs1) => (Except.error (GoError.pathError e), fs1)

/-- Go `zap.Open` for a list of paths. -/
def openSinks : os.FS → List String → Except GoError (List zapcore.WriteSyncer) × os.FS
  | fs, [] => (Except.ok [], fs)
  | fs, p :: ps =>
    match openSink fs p with
    | (Except.error e, fs1) => (Except.error e, fs1)
    | (Except.ok ws, fs1) =>
      match openSinks fs1 ps with
      | (Except.error e, fs2) => (Except.error e, fs2)
      | (Except.ok wss, fs2) => (Except.ok (ws :: wss), fs2)

/-- Go `zap.Config.Build`: the encoder must be registered, the sinks must open and the level
must be set; the logger has one io core per output, all gated by the configured level. -/
def Config.Build (cfg : Config) (fs : os.FS) : Except GoError Logger × os.FS :=
  if cfg.Encoding ≠ "json" ∧ cfg.Encoding ≠ "console" then
    (Except.error (GoError.other "no encoder registered"), fs)
  else match openSinks fs cfg.OutputPaths with
    | (Except.error e, fs1) => (Except.error e, fs1)
    | (Except.ok sinks, fs1) =>
      match openSinks fs1 cfg.ErrorOutputPaths with
      | (Except.error e, fs2) => (Except.error e, fs2)
      | (Except.ok errSinks, fs2) =>
        match cfg.Level with
        | none => (Except.error (GoError.other "missing Level"), fs2)
        | some l =>
          (Except.ok ⟨sinks.map (fun ws => ⟨zapcore.Level.Enabled l, ws⟩),
            errSinks.headD zapcore.WriteSyncer.stderr⟩, fs2)

/-- Go `Logger.check` and `CheckedEntry.Write` at level `lvl`: every io core of the tee whose
enabler accepts the level writes the record to its output. -/
def Logger.log (log : Logger) (lvl : zapcore.Level) (msg : String)
    (fields : List zapcore.Field) : List zapcore.Write :=
  log.core.flatMap (fun c => c.Write ⟨lvl, msg, fields⟩)

/-- Go `Logger.Info`. -/
def Logger.Info (log : Logger) (msg : String) (fields : List zapcore.Field) : List zapcore.Write :=
  log.log zapcore.InfoLevel msg fields

/-- Go `Logger.Error`. -/
def Logger.Error (log : Logger) (msg : String) (fields : List zapcore.Field) : List zapcore.Write :=
  log.log zapcore.ErrorLevel msg fields

/-- Go `Logger.Debug`. -/
def Logger.Debug (log : Logger) (msg : String) (fields : List zapcore.Field) : List zapcore.Write :=
  log.log zapcore.DebugLevel msg fields

end zap

/-! ## logger.go -/

/-- Source `ZapLogger`. -/
structure ZapLogger where
  logger : zap.Logger

/-- The flags of the three `os.OpenFile` calls: `os.O_APPEND|os.O_CREATE|os.O_WRONLY`. -/
def logFileFlags : Nat := os.O_APPEND ||| os.O_CREATE ||| os.O_WRONLY

/-- Source `NewZapLogger`: the returned pair `(*ZapLogger, error)` and the filesystem state
after the call. -/
def NewZapLogger (fs : os.FS) (logFilePath logName : String) (setStdoutOutput : Bool) :
    (Option ZapLogger × Option GoError) × os.FS :=
  match helpers.EnsureDir fs logFilePath with
  | (some err, fs) => ((none, some err), fs)
  | (none, fs) =>
    if setStdoutOutput then
      let cf : zap.Config :=
        { Encoding := "json"
          Level := zap.NewAtomicLevelAt zap.InfoLevel
          OutputPaths := ["stdout"]
          ErrorOutputPaths := ["stderr"] }
      match cf.Build fs with
      | (Except.error err, fs) => ((none, some err), fs)
      | (Except.ok logger, fs) => ((some ⟨logger⟩, none), fs)
    else
      let infoPath := filepath.Join [logFilePath, "info_" ++ logName ++ ".log"]
      let errorPath := filepath.Join [logFilePath, "error_" ++ logName ++ ".log"]
      let debugPath := filepath.Join [logFilePath, "debug_" ++ logName ++ ".log"]
      match os.OpenFile fs infoPath logFileFlags 0o644 with
      | (Except.error err, fs) => ((none, some (GoError.pathError err)), fs)
      | (Except.ok infoFile, fs) =>
        let infoSyncer := zapcore.AddSync infoFile
        match os.OpenFile fs errorPath logFileFlags 0o644 with
        | (Except.error err, fs) => ((none, some (GoError.pathError err)), fs)
        | (Except.ok errorFile, fs) =>
          let errorSyncer := zapcore.AddSync errorFile
          match os.OpenFile fs debugPath logFileFlags 0o644 with
          | (Except.error err, fs) => ((none, some (GoError.pathError err)), fs)
          | (Except.ok debugFile, fs) =>
            let debugSyncer := zapcore.AddSync debugFile
            let infoLevel := zap.LevelEnablerFunc (fun lvl => lvl == zap.InfoLevel)
            let errorLevel := zap.LevelEnablerFunc (fun lvl => lvl == zap.ErrorLevel)
            let debugLevel := zap.LevelEnablerFunc (fun lvl => lvl == zap.DebugLevel)
            let infoCore := zapcore.NewCore infoSyncer infoLevel
            let errorCore := zapcore.NewCore errorSyncer errorLevel
            let debugCore := zapcore.NewCore debugSyncer debugLevel
            let core := zapcore.NewTee [infoCore, errorCore, debugCore]
            let logger := zap.New core
            ((some ⟨logger⟩, none), fs)

/-- Source `ZapLogger.Info`. -/
def ZapLogger.Info (z : ZapLogger) (msg : String) (fields : List zapcore.Field) :
    List zapcore.Write :=
  z.logger.Info msg fields

/-- Source `ZapLogger.Error`. -/
def ZapLogger.Error (z : ZapLogger) (msg : String) (fields : List zapcore.Field) :
    List zapcore.Write :=
  z.logger.Error msg fields

/-- Source `ZapLogger.Debug`. -/
def ZapLogger.Debug (z : ZapLogger) (msg : String) (fields : List zapcore.Field) :
    List zapcore.Write :=
  z.logger.Debug msg fields

/-- Source `ZapLogger.Println`: `z.logger.Debug(fmt.Sprintln(v...))`. -/
def ZapLogger.Println (z : ZapLogger) (v : List fmt.Value) : List zapcore.Write :=
  z.logger.Debug (fmt.Sprintln v) []

/-- Source `ZapLogger.Printf`: `z.logger.Debug(fmt.Sprintf(fmt.Sprintf(format, v...)))`, with
`fmt.Sprintf` as the parameter `Sprintf`. -/
def ZapLogger.Printf (Sprintf : String → List fmt.Value → String) (z : ZapLogger)
    (format : String) (v : List fmt.Value) : List zapcore.Write :=
  z.logger.Debug (Sprintf (Sprintf format v) []) []

/-- The empty filesystem: only the implicit directories exist. -/
def emptyFS : os.FS := fun _ => none

/-! ## Construction: shared lemmas -/

/-- A successful `OpenFile` returns a handle that carries the name it was given. -/
theorem os.OpenFile_ok_name {fs fs1 : os.FS} {name : String} {flag perm : Nat} {f : os.File}
    (h : os.OpenFile fs name flag perm = (Except.ok f, fs1)) : f = ⟨name⟩ := by
  revert h
  unfold os.OpenFile
  dsimp only
  repeat' split
  all_goals (intro h; simp_all)

/-- The stdout configuration always builds, without touching the filesystem. -/
theorem zap.Build_stdout (fs : os.FS) :
    zap.Config.Build
      { Encoding := "json"
        Level := zap.NewAtomicLevelAt zap.InfoLevel
        OutputPaths := ["stdout"]
        ErrorOutputPaths := ["stderr"] } fs
      = (Except.ok ⟨[⟨zapcore.Level.Enabled zapcore.InfoLevel, zapcore.WriteSyncer.stdout⟩],
          zapcore.WriteSyncer.stderr⟩, fs) := by
  simp [zap.Config.Build, zap.openSinks, zap.openSink, zap.NewAtomicLevelAt]

/-- What stdout-mode construction returns, in terms of `os.MkdirAll`. -/
theorem NewZapLogger_stdout_eq (fs : os.FS) (path name : String) :
    NewZapLogger fs path name true =
      (match os.MkdirAll fs path 0o755 with
        | (some e, fs1) => ((none, some (GoError.pathError e)), fs1)
        | (none, fs1) =>
          ((some ⟨⟨[⟨zapcore.Level.Enabled zapcore.InfoLevel, zapcore.WriteSyncer.stdout⟩],
            zapcore.WriteSyncer.stderr⟩⟩, none), fs1)) := by
  unfold NewZapLogger helpers.EnsureDir
  rcases hm : os.MkdirAll fs path 0o755 with ⟨_ | e, fs1⟩
  · simp [zap.Build_stdout]
  · simp

/-- The logger of a facade that stdout-mode construction returned. -/
theorem NewZapLogger_stdout_ok {fs fs1 : os.FS} {path name : String} {z : ZapLogger}
    (h : NewZapLogger fs path name true = ((some z, none), fs1)) :
    z.logger.core = [⟨zapcore.Level.Enabled zapcore.InfoLevel, zapcore.WriteSyncer.stdout⟩] := by
  rw [NewZapLogger_stdout_eq] at h
  rcases hm : os.MkdirAll fs path 0o755 with ⟨_ | e, fs2⟩
  · rw [hm] at h
    simp only [Prod.mk.injEq, Option.some.injEq, and_true] at h
    rw [← h.1]
  · rw [hm] at h
    simp at h

/-- What file-mode construction returns, step by step: the directory, then the three files. -/
theorem NewZapLogger_file_eq (fs : os.FS) (path name : String) :
    NewZapLogger fs path name false =
      (match os.MkdirAll fs path 0o755 with
        | (some e, fs1) => ((none, some (GoError.pathError e)), fs1)
        | (none, fs1) =>
          match os.OpenFile fs1 (filepath.Join [path, "info_" ++ name ++ ".log"])
              logFileFlags 0o644 with
          | (Except.error e, fs2) => ((none, some (GoError.pathError e)), fs2)
          | (Except.ok infoFile, fs2) =>
            match os.OpenFile fs2 (filepath.Join [path, "error_" ++ name ++ ".log"])
                logFileFlags 0o644 with
            | (Except.error e, fs3) => ((none, some (GoError.pathError e)), fs3)
            | (Except.ok errorFile, fs3) =>
              match os.OpenFile fs3 (filepath.Join [path, "debug_" ++ name ++ ".log"])
                  logFileFlags 0o644 with
              | (Except.error e, fs4) => ((none, some (GoError.pathError e)), fs4)
              | (Except.ok debugFile, fs4) =>
                ((some ⟨⟨[⟨fun lvl => lvl == zapcore.InfoLevel, zapcore.WriteSyncer.file infoFile⟩,
                          ⟨fun lvl => lvl == zapcore.ErrorLevel, zapcore.WriteSyncer.file errorFile⟩,
                          ⟨fun lvl => lvl == zapcore.DebugLevel, zapcore.WriteSyncer.file debugFile⟩],
                        zapcore.WriteSyncer.stderr⟩⟩, none), fs4)) := by
  unfold NewZapLogger helpers.EnsureDir
  rcases hm : os.MkdirAll fs path 0o755 with ⟨_ | e, fs1⟩
  · simp only [Bool.false_eq_true, if_false]
    rcases h1 : os.OpenFile fs1 (filepath.Join [path, "info_" ++ name ++ ".log"])
      logFileFlags 0o644 with ⟨_ | f1, fs2⟩
    · rfl
    · simp only []
      rcases h2 : os.OpenFile fs2 (filepath.Join [path, "error_" ++ name ++ ".log"])
        logFileFlags 0o644 with ⟨_ | f2, fs3⟩
      · rfl
      · simp only []
        rcases h3 : os.OpenFile fs3 (filepath.Join [path, "debug_" ++ name ++ ".log"])
          logFileFlags 0o644 with ⟨_ | f3, fs4⟩
        · rfl
        · rfl
  · rfl

/-- The steps behind a facade that file-mode construction returned. -/
theorem NewZapLogger_file_ok {fs fs4 : os.FS} {path name : String} {z : ZapLogger}
    (h : NewZapLogger fs path name false = ((some z, none), fs4)) :
    ∃ fs1 fs2 fs3 : os.FS,
      os.MkdirAll fs path 0o755 = (none, fs1) ∧
      os.OpenFile fs1 (filepath.Join [path, "info_" ++ name ++ ".log"]) logFileFlags 0o644
        = (Except.ok ⟨filepath.Join [path, "info_" ++ name ++ ".log"]⟩, fs2) ∧
      os.OpenFile fs2 (filepath.Join [path, "error_" ++ name ++ ".log"]) logFileFlags 0o644
        = (Except.ok ⟨filepath.Join [path, "error_" ++ name ++ ".log"]⟩, fs3) ∧
      os.OpenFile fs3 (filepath.Join [path, "debug_" ++ name ++ ".log"]) logFileFlags 0o644
        = (Except.ok ⟨filepath.Join [path, "debug_" ++ name ++ ".log"]⟩, fs4) ∧
      z.logger.core =
        [⟨fun lvl => lvl == zapcore.InfoLevel,
            zapcore.WriteSyncer.file ⟨filepath.Join [path, "info_" ++ name ++ ".log"]⟩⟩,
         ⟨fun lvl => lvl == zapcore.ErrorLevel,
            zapcore.WriteSyncer.file ⟨filepath.Join [path, "error_" ++ name ++ ".log"]⟩⟩,
         ⟨fun lvl => lvl == zapcore.DebugLevel,
            zapcore.WriteSyncer.file ⟨filepath.Join [path, "debug_" ++ name ++ ".log"]⟩⟩] := by
  rw [NewZapLogger_file_eq] at h
  rcases hm : os.MkdirAll fs path 0o755 with ⟨_ | e, fs1⟩
  swap
  · rw [hm] at h; simp at h
  rw [hm] at h
  simp only [] at h
  rcases h1 : os.OpenFile fs1 (filepath.Join [path, "info_" ++ name ++ ".log"])
    logFileFlags 0o644 with ⟨e | f1, fs2⟩
  · rw [h1] at h; simp at h
  rw [h1] at h
  simp only [] at h
  rcases h2 : os.OpenFile fs2 (filepath.Join [path, "error_" ++ name ++ ".log"])
    logFileFlags 0o644 with ⟨e | f2, fs3⟩
  · rw [h2] at h; simp at h
  rw [h2] at h
  simp only [] at h
  rcases h3 : os.OpenFile fs3 (filepath.Join [path, "debug_" ++ name ++ ".log"])
    logFileFlags 0o644 with ⟨e | f3, fs5⟩
  · rw [h3] at h; simp at h
  rw [h3] at h
  simp only [Prod.mk.injEq, Option.some.injEq, and_true] at h
  obtain ⟨hz, hfs⟩ := h
  subst hfs
  have e1 := os.OpenFile_ok_name h1
  have e2 := os.OpenFile_ok_name h2
  have e3 := os.OpenFile_ok_name h3
  subst e1 e2 e3
  exact ⟨fs1, fs2, fs3, rfl, h1, h2, h3, by rw [← hz]⟩

/-- The writes of a logging call: one per io core whose enabler accepts the level, in order. -/
theorem zap.Logger.log_eq_filter_map (log : zap.Logger) (lvl : zapcore.Level) (msg : String)
    (fields : List zapcore.Field) :
    log.log lvl msg fields =
      (log.core.filter (fun c => c.enab lvl)).map (fun c => ⟨c.out, ⟨lvl, msg, fields⟩⟩) := by
  unfold zap.Logger.log
  induction log.core with
  | nil => rfl
  | cons c cs ih =>
    rw [List.flatMap_cons, ih]
    by_cases hc : c.enab lvl = true
    · simp [zapcore.ioCore.Write, hc]
    · simp [zapcore.ioCore.Write, hc]

/-- After the first operand every operand of `doPrintln` is preceded by a space. -/
theorem fmt.doPrintln_succ (n : Nat) (v : List fmt.Value) :
    fmt.doPrintln (n + 1) v = fmt.doPrintln 1 v := by
  induction v generalizing n with
  | nil => rfl
  | cons a r ih => simp only [fmt.doPrintln, ih (n + 1), ih 1]; simp

/-- The accumulator loop of `String.intercalate` with a space, on formatted operands. -/
theorem fmt.intercalate_go_eq (acc : String) (v : List fmt.Value) :
    String.intercalate.go acc " " (v.map fmt.printArg) = acc ++ fmt.doPrintln 1 v := by
  induction v generalizing acc with
  | nil => simp [String.intercalate.go, fmt.doPrintln]
  | cons a r ih =>
    simp only [List.map_cons, String.intercalate.go, ih, fmt.doPrintln, fmt.doPrintln_succ 1 r]
    simp [String.append_assoc]

/-! ## Level gating of the sinks -/

/-- C1. In file mode the facade has three sinks, the info, error and debug files, gated by
exact-level filters: for every level `L` the info sink accepts `L` iff `L` is the info level,
the error sink iff `L` is the error level, the debug sink iff `L` is the debug level. So a
record emitted through `Info`, `Error` or `Debug` is written exactly once, to the sink of its
own level, and a record at any other level is written nowhere. -/
theorem file_mode_exact_level_sinks (fs fs1 : os.FS) (path name : String) (z : ZapLogger)
    (h : NewZapLogger fs path name false = ((some z, none), fs1)) :
    ∃ infoCore errorCore debugCore : zapcore.ioCore,
      z.logger.core = [infoCore, errorCore, debugCore] ∧
      infoCore.out = zapcore.WriteSyncer.file ⟨filepath.Join [path, "info_" ++ name ++ ".log"]⟩ ∧
      errorCore.out = zapcore.WriteSyncer.file ⟨filepath.Join [path, "error_" ++ name ++ ".log"]⟩ ∧
      debugCore.out = zapcore.WriteSyncer.file ⟨filepath.Join [path, "debug_" ++ name ++ ".log"]⟩ ∧
      (∀ L : zapcore.Level, infoCore.enab L = true ↔ L = zapcore.InfoLevel) ∧
      (∀ L : zapcore.Level, errorCore.enab L = true ↔ L = zapcore.ErrorLevel) ∧
      (∀ L : zapcore.Level, debugCore.enab L = true ↔ L = zapcore.DebugLevel) ∧
      (∀ msg fields, z.Info msg fields = [⟨infoCore.out, ⟨zapcore.InfoLevel, msg, fields⟩⟩]) ∧
      (∀ msg fields, z.Error msg fields = [⟨errorCore.out, ⟨zapcore.ErrorLevel, msg, fields⟩⟩]) ∧
      (∀ msg fields, z.Debug msg fields = [⟨debugCore.out, ⟨zapcore.DebugLevel, msg, fields⟩⟩]) ∧
      (∀ (L : zapcore.Level) msg fields, L ≠ zapcore.InfoLevel → L ≠ zapcore.ErrorLevel →
        L ≠ zapcore.DebugLevel → z.logger.log L msg fields = []) := by
  obtain ⟨_, _, _, _, _, _, _, hcore⟩ := NewZapLogger_file_ok h
  refine ⟨_, _, _, hcore, rfl, rfl, rfl, ?_, ?_, ?_, ?_, ?_, ?_, ?_⟩
  · intro L; simp
  · intro L; simp
  · intro L; simp
  · intro msg fields
    simp [ZapLogger.Info, zap.Logger.Info, zap.Logger.log, hcore, zapcore.ioCore.Write,
      zapcore.InfoLevel, zapcore.ErrorLevel, zapcore.DebugLevel]
  · intro msg fields
    simp [ZapLogger.Error, zap.Logger.Error, zap.Logger.log, hcore, zapcore.ioCore.Write,
      zapcore.InfoLevel, zapcore.ErrorLevel, zapcore.DebugLevel]
  · intro msg fields
    simp [ZapLogger.Debug, zap.Logger.Debug, zap.Logger.log, hcore, zapcore.ioCore.Write,
      zapcore.InfoLevel, zapcore.ErrorLevel, zapcore.DebugLevel]
  · intro L msg fields h1 h2 h3
    simp [zap.Logger.log, hcore, zapcore.ioCore.Write, h1, h2, h3]

/-- C2. In stdout mode the facade has a single sink, standard output, gated by a
minimum-severity threshold at info: for every level `L` a record at `L` is written iff
`L >= info`. A record emitted by `Debug` is suppressed; records emitted by `Info` and by `Error`
are written to standard output. -/
theorem stdout_mode_threshold_info (fs fs1 : os.FS) (path name : String) (z : ZapLogger)
    (h : NewZapLogger fs path name true = ((some z, none), fs1)) :
    ∃ c : zapcore.ioCore,
      z.logger.core = [c] ∧
      c.out = zapcore.WriteSyncer.stdout ∧
      (∀ L : zapcore.Level, c.enab L = true ↔ L ≥ zapcore.InfoLevel) ∧
      (∀ (L : zapcore.Level) msg fields,
        z.logger.log L msg fields =
          if L ≥ zapcore.InfoLevel then [⟨zapcore.WriteSyncer.stdout, ⟨L, msg, fields⟩⟩] else []) ∧
      (∀ msg fields, z.Debug msg fields = []) ∧
      (∀ msg fields, z.Info msg fields =
        [⟨zapcore.WriteSyncer.stdout, ⟨zapcore.InfoLevel, msg, fields⟩⟩]) ∧
      (∀ msg fields, z.Error msg fields =
        [⟨zapcore.WriteSyncer.stdout, ⟨zapcore.ErrorLevel, msg, fields⟩⟩]) := by
  have hcore := NewZapLogger_stdout_ok h
  refine ⟨_, hcore, rfl, ?_, ?_, ?_, ?_, ?_⟩
  · intro L; simp [zapcore.Level.Enabled]
  · intro L msg fields
    simp [zap.Logger.log, hcore, zapcore.ioCore.Write, zapcore.Level.Enabled]
  · intro msg fields
    simp [ZapLogger.Debug, zap.Logger.Debug, zap.Logger.log, hcore, zapcore.ioCore.Write,
      zapcore.Level.Enabled, zapcore.InfoLevel, zapcore.DebugLevel]
  · intro msg fields
    simp [ZapLogger.Info, zap.Logger.Info, zap.Logger.log, hcore, zapcore.ioCore.Write,
      zapcore.Level.Enabled, zapcore.InfoLevel]
  · intro msg fields
    simp [ZapLogger.Error, zap.Logger.Error, zap.Logger.log, hcore, zapcore.ioCore.Write,
      zapcore.Level.Enabled, zapcore.InfoLevel, zapcore.ErrorLevel]

/-- C10. On a facade constructed in stdout mode, `Println` and `Printf` write no record at
all, whatever their arguments: both emit at debug level, below the info threshold. -/
theorem stdout_mode_println_printf_write_nothing (fs fs1 : os.FS) (path name : String)
    (z : ZapLogger) (h : NewZapLogger fs path name true = ((some z, none), fs1)) :
    (∀ v : List fmt.Value, z.Println v = []) ∧
    (∀ (Sprintf : String → List fmt.Value → String) (format : String) (v : List fmt.Value),
      z.Printf Sprintf format v = []) := by
  have hcore := NewZapLogger_stdout_ok h
  constructor
  · intro v
    simp [ZapLogger.Println, zap.Logger.Debug, zap.Logger.log, hcore, zapcore.ioCore.Write,
      zapcore.Level.Enabled, zapcore.InfoLevel, zapcore.DebugLevel]
  · intro Sprintf format v
    simp [ZapLogger.Printf, zap.Logger.Debug, zap.Logger.log, hcore, zapcore.ioCore.Write,
      zapcore.Level.Enabled, zapcore.InfoLevel, zapcore.DebugLevel]

/-! ## Println and Printf -/

/-- C6. `Printf` hands the underlying logger exactly one record, at debug level and without
fields, whose message is the format operation applied twice, `Sprintf(Sprintf(format, v...))`:
every sink that accepts the debug level receives that one record, and on a file-mode facade it
is the single write, to the debug file. -/
theorem printf_emits_one_debug_record_formatted_twice
    (Sprintf : String → List fmt.Value → String) (format : String) (v : List fmt.Value) :
    (∀ z : ZapLogger, z.Printf Sprintf format v =
      (z.logger.core.filter (fun c => c.enab zapcore.DebugLevel)).map
        (fun c => ⟨c.out, ⟨zapcore.DebugLevel, Sprintf (Sprintf format v) [], []⟩⟩)) ∧
    (∀ (fs fs1 : os.FS) (path name : String) (z : ZapLogger),
      NewZapLogger fs path name false = ((some z, none), fs1) →
      z.Printf Sprintf format v =
        [⟨zapcore.WriteSyncer.file ⟨filepath.Join [path, "debug_" ++ name ++ ".log"]⟩,
          ⟨zapcore.DebugLevel, Sprintf (Sprintf format v) [], []⟩⟩]) := by
  constructor
  · intro z
    simp only [ZapLogger.Printf, zap.Logger.Debug, zap.Logger.log_eq_filter_map]
  · intro fs fs1 path name z h
    obtain ⟨_, _, _, _, _, _, _, hcore⟩ := NewZapLogger_file_ok h
    simp [ZapLogger.Printf, zap.Logger.Debug, zap.Logger.log, hcore, zapcore.ioCore.Write,
      zapcore.InfoLevel, zapcore.ErrorLevel, zapcore.DebugLevel]

/-- C7. `Println` hands the underlying logger exactly one record, at debug level (not info)
and without fields, whose message is `fmt.Sprintln` of the values: their default formats
separated by single spaces and ended by a newline. Every sink that accepts the debug level
receives that one record; on a file-mode facade it is the single write, to the debug file; and
`Println("a", "b")` has the message `a b` followed by a newline. -/
theorem println_emits_one_debug_record (v : List fmt.Value) :
    (∀ z : ZapLogger, z.Println v =
      (z.logger.core.filter (fun c => c.enab zapcore.DebugLevel)).map
        (fun c => ⟨c.out, ⟨zapcore.DebugLevel, fmt.Sprintln v, []⟩⟩)) ∧
    (∀ (fs fs1 : os.FS) (path name : String) (z : ZapLogger),
      NewZapLogger fs path name false = ((some z, none), fs1) →
      z.Println v =
        [⟨zapcore.WriteSyncer.file ⟨filepath.Join [path, "debug_" ++ name ++ ".log"]⟩,
          ⟨zapcore.DebugLevel, fmt.Sprintln v, []⟩⟩]) ∧
    fmt.Sprintln v = " ".intercalate (v.map fmt.printArg) ++ "\n" ∧
    fmt.Sprintln [fmt.Value.str "a", fmt.Value.str "b"] = "a b\n" := by
  refine ⟨?_, ?_, ?_, by decide⟩
  · intro z
    simp only [ZapLogger.Println, zap.Logger.Debug, zap.Logger.log_eq_filter_map]
  · intro fs fs1 path name z h
    obtain ⟨_, _, _, _, _, _, _, hcore⟩ := NewZapLogger_file_ok h
    simp [ZapLogger.Println, zap.Logger.Debug, zap.Logger.log, hcore, zapcore.ioCore.Write,
      zapcore.InfoLevel, zapcore.ErrorLevel, zapcore.DebugLevel]
  · cases v with
    | nil => rfl
    | cons a r =>
      simp only [fmt.Sprintln, fmt.doPrintln, List.map_cons, String.intercalate,
        fmt.intercalate_go_eq, fmt.doPrintln_succ 1 r]
      simp

/-! ## Filesystem effects -/

/-- Making directories only adds directories at paths that held nothing. -/
theorem os.mkdirEach_adds_dirs (path : String) (perm : Nat) (qs : List String) (fs : os.FS)
    (k : String) :
    (os.mkdirEach path perm fs qs).2 k = fs k ∨
      (fs k = none ∧ (os.mkdirEach path perm fs qs).2 k = some (os.Node.dir perm)) := by
  induction qs generalizing fs with
  | nil => exact Or.inl rfl
  | cons q qs ih =>
    unfold os.mkdirEach
    split
    · exact ih fs
    · split
      · exact Or.inl rfl
      · rename_i hq
        rcases ih (fs.set q (os.Node.dir perm)) with h | ⟨h1, h2⟩
        · by_cases hk : k = q
          · right
            subst hk
            refine ⟨hq, ?_⟩
            rw [h]
            simp [os.FS.set]
          · left
            rw [h]
            simp [os.FS.set, hk]
        · by_cases hk : k = q
          · subst hk
            simp [os.FS.set] at h1
          · right
            refine ⟨?_, h2⟩
            simpa [os.FS.set, hk] using h1

/-- Go `MkdirAll` only adds directories at paths that held nothing. -/
theorem os.MkdirAll_adds_dirs (fs : os.FS) (path : String) (perm : Nat) (k : String) :
    (os.MkdirAll fs path perm).2 k = fs k ∨
      (fs k = none ∧ (os.MkdirAll fs path perm).2 k = some (os.Node.dir perm)) := by
  unfold os.MkdirAll
  dsimp only
  split
  · exact Or.inl rfl
  · split
    · exact Or.inl rfl
    · split
      · exact Or.inl rfl
      · exact os.mkdirEach_adds_dirs _ _ _ _ _

/-- Go `MkdirAll` leaves every regular file, and the absence of one, as it was. -/
theorem os.ReadFile_MkdirAll (fs : os.FS) (path : String) (perm : Nat) (name : String) :
    os.ReadFile (os.MkdirAll fs path perm).2 name = os.ReadFile fs name := by
  unfold os.ReadFile
  rcases os.MkdirAll_adds_dirs fs path perm (filepath.Clean name) with h | ⟨h1, h2⟩
  · rw [h]
  · rw [h1, h2]

/-- The flags of the log files ask for creation, and neither for exclusivity nor truncation. -/
theorem logFileFlags_bits :
    os.hasFlag logFileFlags os.O_CREATE = true ∧ os.hasFlag logFileFlags os.O_EXCL = false ∧
      os.hasFlag logFileFlags os.O_TRUNC = false := by
  decide

/-- A successful open with the log-file flags found a regular file and left the state as it
was, or found nothing and created an empty file. -/
theorem os.OpenFile_log_ok {fs fs1 : os.FS} {name : String} {perm : Nat} {f : os.File}
    (h : os.OpenFile fs name logFileFlags perm = (Except.ok f, fs1)) :
    (fs1 = fs ∧ ∃ p c, fs (filepath.Clean name) = some (os.Node.file p c)) ∨
      (fs (filepath.Clean name) = none ∧
        fs1 = fs.set (filepath.Clean name) (os.Node.file perm "")) := by
  revert h
  unfold os.OpenFile
  simp only [logFileFlags_bits.1, logFileFlags_bits.2.1, logFileFlags_bits.2.2]
  repeat' split
  all_goals (intro h; simp_all)

/-- After a successful open with the log-file flags the file exists, and every name reads as
before or was absent and now reads empty. -/
theorem os.ReadFile_OpenFile_log {fs fs1 : os.FS} {name : String} {perm : Nat} {f : os.File}
    (h : os.OpenFile fs name logFileFlags perm = (Except.ok f, fs1)) :
    os.ReadFile fs1 name ≠ none ∧
      ∀ m, os.ReadFile fs1 m = os.ReadFile fs m ∨
        (os.ReadFile fs m = none ∧ os.ReadFile fs1 m = some "") := by
  rcases os.OpenFile_log_ok h with ⟨h1, p, c, hc⟩ | ⟨h1, h2⟩
  · subst h1
    exact ⟨by simp [os.ReadFile, hc], fun m => Or.inl rfl⟩
  · subst h2
    refine ⟨by simp [os.ReadFile, os.FS.set], fun m => ?_⟩
    by_cases hm : filepath.Clean m = filepath.Clean name
    · right
      simp [os.ReadFile, os.FS.set, hm, h1]
    · left
      simp [os.ReadFile, os.FS.set, hm]

/-- Steps that keep existing files and create only empty ones compose. -/
theorem os.files_kept_trans {a b c : os.FS}
    (g1 : ∀ m, os.ReadFile b m = os.ReadFile a m ∨
      (os.ReadFile a m = none ∧ os.ReadFile b m = some ""))
    (g2 : ∀ m, os.ReadFile c m = os.ReadFile b m ∨
      (os.ReadFile b m = none ∧ os.ReadFile c m = some "")) :
    ∀ m, os.ReadFile c m = os.ReadFile a m ∨
      (os.ReadFile a m = none ∧ os.ReadFile c m = some "") := by
  intro m
  rcases g1 m with h1 | ⟨h1, h1'⟩ <;> rcases g2 m with h2 | ⟨h2, h2'⟩
  · exact Or.inl (h2.trans h1)
  · exact Or.inr ⟨h1 ▸ h2, h2'⟩
  · exact Or.inr ⟨h1, h2.trans h1'⟩
  · rw [h1'] at h2; exact absurd h2 (by simp)

/-- A file that exists still exists after a step that keeps existing files. -/
theorem os.files_kept_exists {a b : os.FS}
    (g : ∀ m, os.ReadFile b m = os.ReadFile a m ∨
      (os.ReadFile a m = none ∧ os.ReadFile b m = some ""))
    (m : String) (h : os.ReadFile a m ≠ none) : os.ReadFile b m ≠ none := by
  rcases g m with k | ⟨k, -⟩
  · rwa [k]
  · exact absurd k h

/-! ## Construction: effects and errors -/

/-- C3, as the code has it. Construction in stdout mode calls `EnsureDir` before it looks at
the mode: its result and the filesystem state after it are those of
`os.MkdirAll(path, 0755)`, an error of which is returned without a facade. No log file is
created or opened: every regular file reads as before and no new one appears. -/
theorem stdout_mode_only_ensures_dir (fs : os.FS) (path name : String) :
    NewZapLogger fs path name true =
      (match os.MkdirAll fs path 0o755 with
        | (some e, fs1) => ((none, some (GoError.pathError e)), fs1)
        | (none, fs1) =>
          ((some ⟨⟨[⟨zapcore.Level.Enabled zapcore.InfoLevel, zapcore.WriteSyncer.stdout⟩],
            zapcore.WriteSyncer.stderr⟩⟩, none), fs1)) ∧
    (NewZapLogger fs path name true).2 = (os.MkdirAll fs path 0o755).2 ∧
    (∀ file : String, os.ReadFile (NewZapLogger fs path name true).2 file = os.ReadFile fs file) := by
  have heq := NewZapLogger_stdout_eq fs path name
  have h2 : (NewZapLogger fs path name true).2 = (os.MkdirAll fs path 0o755).2 := by
    rw [heq]
    rcases os.MkdirAll fs path 0o755 with ⟨_ | e, fs1⟩ <;> rfl
  refine ⟨heq, h2, fun file => ?_⟩
  rw [h2, os.ReadFile_MkdirAll]

/-- C3 fails as stated: on the empty filesystem, stdout-mode construction with path `logs`
creates the directory `logs`, so the state after the call is not the state before it. -/
theorem stdout_mode_creates_directory :
    ¬ ∀ (fs : os.FS) (path name : String), (NewZapLogger fs path name true).2 = fs := by
  intro h
  have h1 : (NewZapLogger emptyFS "logs" "app" true).2 "logs" = emptyFS "logs" :=
    congrFun (h emptyFS "logs" "app") "logs"
  revert h1
  decide

/-- C4. In file mode the returned error is exactly the error of the first failing step among
directory creation and the opens of the info, error and debug files, in that order, and nil
when all four succeed; an error is returned iff one of the steps fails; and the facade is
non-nil exactly when the error is nil. -/
theorem file_mode_error_is_first_failing_step (fs : os.FS) (path name : String) :
    let d := os.MkdirAll fs path 0o755
    let o1 := os.OpenFile d.2 (filepath.Join [path, "info_" ++ name ++ ".log"]) logFileFlags 0o644
    let o2 := os.OpenFile o1.2 (filepath.Join [path, "error_" ++ name ++ ".log"]) logFileFlags 0o644
    let o3 := os.OpenFile o2.2 (filepath.Join [path, "debug_" ++ name ++ ".log"]) logFileFlags 0o644
    let r := NewZapLogger fs path name false
    r.1.2 =
      (match d.1 with
        | some e => some (GoError.pathError e)
        | none =>
          match o1.1 with
          | Except.error e => some (GoError.pathError e)
          | Except.ok _ =>
            match o2.1 with
            | Except.error e => some (GoError.pathError e)
            | Except.ok _ =>
              match o3.1 with
              | Except.error e => some (GoError.pathError e)
              | Except.ok _ => none) ∧
    r.1.2.isSome = (d.1.isSome || !o1.1.isOk || !o2.1.isOk || !o3.1.isOk) ∧
    r.1.1.isSome = r.1.2.isNone := by
  intro d o1 o2 o3 r
  have hr : r = NewZapLogger fs path name false := rfl
  rw [NewZapLogger_file_eq] at hr
  rcases hm : os.MkdirAll fs path 0o755 with ⟨_ | e, fs1⟩
  swap
  · have hd : d = (some e, fs1) := hm
    rw [hm] at hr
    simp [hr, hd]
  have hd : d = (none, fs1) := hm
  rw [hm] at hr
  simp only [] at hr
  rcases h1 : os.OpenFile fs1 (filepath.Join [path, "info_" ++ name ++ ".log"])
    logFileFlags 0o644 with ⟨e | f1, fs2⟩
  · have ho1 : o1 = (Except.error e, fs2) := by simp only [o1, hd, h1]
    rw [h1] at hr
    simp [hr, hd, ho1, Except.isOk, Except.toBool]
  have ho1 : o1 = (Except.ok f1, fs2) := by simp only [o1, hd, h1]
  rw [h1] at hr
  simp only [] at hr
  rcases h2 : os.OpenFile fs2 (filepath.Join [path, "error_" ++ name ++ ".log"])
    logFileFlags 0o644 with ⟨e | f2, fs3⟩
  · have ho2 : o2 = (Except.error e, fs3) := by simp only [o2, ho1, h2]
    rw [h2] at hr
    simp [hr, hd, ho1, ho2, Except.isOk, Except.toBool]
  have ho2 : o2 = (Except.ok f2, fs3) := by simp only [o2, ho1, h2]
  rw [h2] at hr
  simp only [] at hr
  rcases h3 : os.OpenFile fs3 (filepath.Join [path, "debug_" ++ name ++ ".log"])
    logFileFlags 0o644 with ⟨e | f3, fs4⟩
  · have ho3 : o3 = (Except.error e, fs4) := by simp only [o3, ho2, h3]
    rw [h3] at hr
    simp [hr, hd, ho1, ho2, ho3, Except.isOk, Except.toBool]
  have ho3 : o3 = (Except.ok f3, fs4) := by simp only [o3, ho2, h3]
  rw [h3] at hr
  simp [hr, hd, ho1, ho2, ho3, Except.isOk, Except.toBool]

/-- C8. When file-mode construction succeeds, each of the three log files exists afterwards;
one that existed before keeps exactly its previous contents and one that was absent is
empty. -/
theorem file_mode_keeps_existing_contents (fs fs4 : os.FS) (path name : String) (z : ZapLogger)
    (h : NewZapLogger fs path name false = ((some z, none), fs4)) :
    ∀ file ∈ [filepath.Join [path, "info_" ++ name ++ ".log"],
              filepath.Join [path, "error_" ++ name ++ ".log"],
              filepath.Join [path, "debug_" ++ name ++ ".log"]],
      os.ReadFile fs4 file = some ((os.ReadFile fs file).getD "") := by
  obtain ⟨fs1, fs2, fs3, hm, h1, h2, h3, -⟩ := NewZapLogger_file_ok h
  have hd : ∀ m, os.ReadFile fs1 m = os.ReadFile fs m := by
    intro m
    have := os.ReadFile_MkdirAll fs path 0o755 m
    rwa [hm] at this
  obtain ⟨e1, g1⟩ := os.ReadFile_OpenFile_log h1
  obtain ⟨e2, g2⟩ := os.ReadFile_OpenFile_log h2
  obtain ⟨e3, g3⟩ := os.ReadFile_OpenFile_log h3
  have g14 := os.files_kept_trans (os.files_kept_trans g1 g2) g3
  intro file hfile
  simp only [List.mem_cons, List.mem_singleton, List.not_mem_nil, or_false] at hfile
  have hex : os.ReadFile fs4 file ≠ none := by
    rcases hfile with rfl | rfl | rfl
    · exact os.files_kept_exists g3 _ (os.files_kept_exists g2 _ e1)
    · exact os.files_kept_exists g3 _ e2
    · exact e3
  rw [← hd file]
  rcases g14 file with k | ⟨k1, k2⟩
  · rw [k] at hex ⊢
    cases hr : os.ReadFile fs1 file with
    | none => exact absurd hr hex
    | some c => rfl
  · rw [k1, k2]; rfl

/-! ## filepath: the loop of Clean, element by element -/

namespace filepath

/-- The first element of a path is what precedes its first separator. -/
theorem splitSep_eq (l : List Char) :
    splitSep l = l.takeWhile (fun x => !IsPathSeparator x) ::
      (match l.dropWhile (fun x => !IsPathSeparator x) with
        | [] => []
        | _ :: r => splitSep r) := by
  induction l with
  | nil => rfl
  | cons c t ih =>
    by_cases hc : IsPathSeparator c = true
    · simp [splitSep, hc, List.takeWhile, List.dropWhile]
    · simp only [Bool.not_eq_true] at hc
      rw [splitSep, ih]
      simp [hc, List.takeWhile, List.dropWhile]

/-- An element is empty exactly at the end of the path or before a separator. -/
theorem takeWhile_eq_nil_iff (l : List Char) :
    l.takeWhile (fun x => !IsPathSeparator x) = [] ↔ atEndOrSeparator l = true := by
  cases l with
  | nil => simp [atEndOrSeparator]
  | cons c t =>
    by_cases hc : IsPathSeparator c = true
    · simp [atEndOrSeparator, hc, List.takeWhile]
    · simp only [Bool.not_eq_true] at hc
      simp [atEndOrSeparator, hc, List.takeWhile]

/-- What is left after an element is no longer than the path. -/
theorem length_dropWhile_le (l : List Char) :
    (l.dropWhile (fun x => !IsPathSeparator x)).length ≤ l.length := by
  induction l with
  | nil => simp
  | cons c t ih =>
    rw [List.dropWhile_cons]
    split
    · exact Nat.le_succ_of_le ih
    · exact Nat.le_refl _

/-- What is left after an element starts with a separator. -/
theorem dropWhile_head_sep (l : List Char) (x : Char) (r : List Char)
    (h : l.dropWhile (fun x => !IsPathSeparator x) = x :: r) : IsPathSeparator x = true := by
  induction l with
  | nil => simp at h
  | cons c t ih =>
    rw [List.dropWhile_cons] at h
    split at h
    · exact ih h
    · rename_i hc
      simp only [List.cons.injEq] at h
      rw [← h.1]
      simpa using hc

/-- Folding over the elements of the rest of a path, the empty element before it is skipped. -/
theorem foldl_rest (rooted : Bool) (l : List Char) (st : List Char × Nat) :
    (splitSep (l.dropWhile (fun x => !IsPathSeparator x))).foldl (cleanStep rooted) st =
      (match l.dropWhile (fun x => !IsPathSeparator x) with
        | [] => []
        | _ :: r => splitSep r).foldl (cleanStep rooted) st := by
  cases h : l.dropWhile (fun x => !IsPathSeparator x) with
  | nil => simp [splitSep, cleanStep]
  | cons x r =>
    have hx := dropWhile_head_sep l x r h
    simp [splitSep, hx, cleanStep]

/-- The loop of `Clean` on characters is the fold of `cleanStep` over the path elements, once
the fuel covers the unread input. -/
theorem cleanLoop_eq_foldl (rooted : Bool) (fuel : Nat) (rest : List Char)
    (st : List Char × Nat) (hfuel : rest.length ≤ fuel) :
    cleanLoop rooted fuel rest st = (splitSep rest).foldl (cleanStep rooted) st := by
  induction fuel generalizing rest st with
  | zero =>
    have : rest = [] := List.length_eq_zero.mp (Nat.le_zero.mp hfuel)
    subst this
    simp [cleanLoop, splitSep, cleanStep]
  | succ fuel ih =>
    cases rest with
    | nil => simp [cleanLoop, splitSep, cleanStep]
    | cons c t =>
      obtain ⟨out, dotdot⟩ := st
      have ht : t.length ≤ fuel := by simpa using hfuel
      rw [cleanLoop]
      split
      · -- empty path element
        rename_i hc
        rw [ih t _ ht]
        simp [splitSep, hc, cleanStep]
      · rename_i hc
        simp only [Bool.not_eq_true] at hc
        split
        · -- . element
          rename_i hdot
          simp only [Bool.and_eq_true, beq_iff_eq] at hdot
          obtain ⟨hc1, hend⟩ := hdot
          subst hc1
          rw [ih t _ ht, splitSep_eq ('.' :: t), splitSep_eq t]
          have h1 := (takeWhile_eq_nil_iff t).mpr hend
          simp [List.takeWhile, List.dropWhile, hc, h1, cleanStep]
        · rename_i hdot
          split
          · -- .. element
            rename_i hdd
            simp only [Bool.and_eq_true, beq_iff_eq] at hdd
            obtain ⟨⟨hc1, hhead⟩, hend⟩ := hdd
            subst hc1
            cases t with
            | nil => simp at hhead
            | cons c2 t2 =>
              simp only [List.head?_cons, Option.some.injEq] at hhead
              subst hhead
              simp only [List.tail_cons] at hend ⊢
              have ht2 : t2.length ≤ fuel := by
                simp only [List.length_cons] at ht
                omega
              have h1 := (takeWhile_eq_nil_iff t2).mpr hend
              have e : splitSep ('.' :: '.' :: t2) = ['.', '.'] :: (splitSep t2).tail := by
                rw [splitSep_eq ('.' :: '.' :: t2), splitSep_eq t2]
                simp [List.takeWhile, List.dropWhile, hc, h1]
              have e2 : splitSep t2 = [] :: (splitSep t2).tail := by
                rw [splitSep_eq t2]
                simp [h1]
              rw [e]
              split
              · rename_i hlen
                rw [ih t2 _ ht2]
                conv_lhs => rw [e2]
                simp [cleanStep, hlen]
              · rename_i hlen
                split
                · rename_i hr
                  rw [ih t2 _ ht2]
                  conv_lhs => rw [e2]
                  simp [cleanStep, hlen, hr]
                · rename_i hr
                  rw [ih t2 _ ht2]
                  conv_lhs => rw [e2]
                  simp [cleanStep, hlen, hr]
          · -- real path element
            rename_i hdd
            have hlen : ((c :: t).dropWhile (fun x => !IsPathSeparator x)).length ≤ fuel := by
              rw [List.dropWhile_cons]
              simp only [hc, Bool.not_false, if_true]
              exact Nat.le_trans (length_dropWhile_le t) ht
            rw [ih _ _ hlen, foldl_rest, splitSep_eq (c :: t)]
            have hseg : (c :: t).takeWhile (fun x => !IsPathSeparator x) =
                c :: t.takeWhile (fun x => !IsPathSeparator x) := by
              simp [List.takeWhile, hc]
            have hne1 : (c :: t).takeWhile (fun x => !IsPathSeparator x) ≠ ['.'] := by
              rw [hseg]
              intro h
              simp only [List.cons.injEq] at h
              exact hdot (by simp [h.1, (takeWhile_eq_nil_iff t).mp h.2])
            have hne2 : (c :: t).takeWhile (fun x => !IsPathSeparator x) ≠ ['.', '.'] := by
              rw [hseg]
              intro h
              simp only [List.cons.injEq] at h
              obtain ⟨h1, h2⟩ := h
              cases t with
              | nil => simp at h2
              | cons c2 t2 =>
                by_cases hc2 : IsPathSeparator c2 = true
                · simp [List.takeWhile, hc2] at h2
                · simp only [Bool.not_eq_true] at hc2
                  simp only [List.takeWhile, hc2, Bool.not_false, List.cons.injEq] at h2
                  exact hdd (by simp [h1, h2.1, (takeWhile_eq_nil_iff t2).mp h2.2])
            have hne0 : (c :: t).takeWhile (fun x => !IsPathSeparator x) ≠ [] := by
              rw [hseg]; simp
            simp only [List.foldl_cons]
            congr 1
            simp [cleanStep, hne0, hne1, hne2]

end filepath

namespace filepath

/-- A path always has a first element. -/
theorem splitSep_ne_nil (l : List Char) : splitSep l ≠ [] := by
  rw [splitSep_eq]; simp

/-- The elements of two paths joined by a separator are those of the first, then of the second. -/
theorem splitSep_append_sep (a b : List Char) :
    splitSep (a ++ '/' :: b) = splitSep a ++ splitSep b := by
  induction a with
  | nil => simp [splitSep, IsPathSeparator]
  | cons c a ih =>
    by_cases hc : IsPathSeparator c = true
    · simp [splitSep, hc, ih]
    · simp only [Bool.not_eq_true] at hc
      cases h : splitSep a with
      | nil => exact absurd h (splitSep_ne_nil a)
      | cons s ss =>
        rw [List.cons_append, splitSep, ih, splitSep, h]
        simp [hc]

/-- A string without separator is a single element. -/
theorem splitSep_of_no_sep (a : List Char) (ha : ∀ c ∈ a, IsPathSeparator c = false) :
    splitSep a = [a] := by
  induction a with
  | nil => rfl
  | cons c a ih =>
    have hc := ha c (List.mem_cons_self _ _)
    rw [splitSep, ih (fun x hx => ha x (List.mem_cons_of_mem _ hx))]
    simp [hc]

/-- Characters without separator put before a path extend its first element. -/
theorem splitSep_append_left (a l s : List Char) (ss : List (List Char))
    (ha : ∀ c ∈ a, IsPathSeparator c = false) (hl : splitSep l = s :: ss) :
    splitSep (a ++ l) = (a ++ s) :: ss := by
  induction a with
  | nil => simpa using hl
  | cons c a ih =>
    have hc := ha c (List.mem_cons_self _ _)
    rw [List.cons_append, splitSep, ih (fun x hx => ha x (List.mem_cons_of_mem _ hx))]
    simp [hc]

/-- Characters without separator put after a path extend its last element. -/
theorem splitSep_append_right (n e : List Char) (he : ∀ c ∈ e, IsPathSeparator c = false) :
    ∃ (init : List (List Char)) (last : List Char),
      splitSep n = init ++ [last] ∧ splitSep (n ++ e) = init ++ [last ++ e] := by
  induction n with
  | nil => exact ⟨[], [], rfl, by simpa using splitSep_of_no_sep e he⟩
  | cons c n ih =>
    obtain ⟨init, last, h1, h2⟩ := ih
    by_cases hc : IsPathSeparator c = true
    · exact ⟨[] :: init, last, by simp [splitSep, hc, h1], by simp [splitSep, hc, h2]⟩
    · simp only [Bool.not_eq_true] at hc
      cases init with
      | nil =>
        exact ⟨[], c :: last, by simp [splitSep, hc, h1], by
          simp only [List.nil_append] at h2
          simp [splitSep, hc, h2]⟩
      | cons i0 irest =>
        exact ⟨(c :: i0) :: irest, last, by simp [splitSep, hc, h1], by
          simp only [List.cons_append] at h2
          simp [splitSep, hc, h2]⟩

/-- The characters `Clean` returns for a non-empty path, as a fold over its elements. -/
theorem cleanChars_eq (c : Char) (t : List Char) :
    cleanChars (c :: t) =
      (let st := (splitSep (c :: t)).foldl (cleanStep (IsPathSeparator c))
          (cleanInit (IsPathSeparator c))
       if st.1.length = 0 then ['.'] else st.1) := by
  unfold cleanChars
  by_cases hc : IsPathSeparator c = true
  · simp only [hc, if_true, List.tail_cons, cleanInit]
    rw [cleanLoop_eq_foldl _ _ _ _ (by simp)]
    simp [splitSep, hc, cleanStep]
  · simp only [Bool.not_eq_true] at hc
    simp only [hc, Bool.false_eq_true, if_false, cleanInit]
    rw [cleanLoop_eq_foldl _ _ _ _ (Nat.le_refl _)]

/-- Without `..` elements, and once something is written, the loop only appends. -/
theorem foldl_no_dotdot (rooted : Bool) (L : List (List Char)) (out : List Char) (dotdot : Nat)
    (hL : ∀ s ∈ L, s ≠ ['.', '.']) (hout : 2 ≤ out.length) :
    L.foldl (cleanStep rooted) (out, dotdot) = (out ++ appended L, dotdot) := by
  induction L generalizing out with
  | nil => simp [appended]
  | cons s L ih =>
    have hs := hL s (List.mem_cons_self _ _)
    have hL1 : ∀ x ∈ L, x ≠ ['.', '.'] := fun x hx => hL x (List.mem_cons_of_mem _ hx)
    rw [List.foldl_cons]
    by_cases h0 : s = []
    · subst h0
      rw [show cleanStep rooted (out, dotdot) [] = (out, dotdot) by simp [cleanStep], ih out hL1 hout]
      simp [appended]
    · by_cases h1 : s = ['.']
      · subst h1
        rw [show cleanStep rooted (out, dotdot) ['.'] = (out, dotdot) by simp [cleanStep],
          ih out hL1 hout]
        simp [appended]
      · have hstep : cleanStep rooted (out, dotdot) s = (out ++ '/' :: s, dotdot) := by
          have hne1 : out.length ≠ 1 := by omega
          have hne0 : out.length ≠ 0 := by omega
          cases rooted <;> simp [cleanStep, h0, h1, hs, hne1, hne0]
        rw [hstep, ih _ hL1 (by simp; omega)]
        simp [appended, h0, h1]

/-- A real first element is written after a separator if one is needed. -/
theorem cleanStep_real (rooted : Bool) (out : List Char) (dotdot : Nat) (s : List Char)
    (hs : 3 ≤ s.length) :
    cleanStep rooted (out, dotdot) s =
      ((if rooted && out.length != 1 || !rooted && out.length != 0 then out ++ ['/'] else out)
        ++ s, dotdot) := by
  have h0 : s ≠ [] := by intro h; rw [h] at hs; simp at hs
  have h1 : s ≠ ['.'] := by intro h; rw [h] at hs; simp at hs
  have h2 : s ≠ ['.', '.'] := by intro h; rw [h] at hs; simp at hs
  simp [cleanStep, h0, h1, h2]

/-- Go `Clean` of a non-empty string, on characters. -/
theorem Clean_data (p : String) (c : Char) (t : List Char) (hp : p.data = c :: t) :
    (Clean p).data = cleanChars (c :: t) := by
  have hne : p ≠ "" := by
    intro h
    rw [h] at hp
    simp at hp
  simp [Clean, hne, hp]

/-- The path `Join` makes of a directory and an element, when the first element of `elem` has
three characters or more and no later one is `..`: a part that depends on the directory only,
then the first element, then the later real elements, each after a separator. -/
theorem Join_data (path : String) :
    ∃ pre : List Char, ∀ (elem : String) (s : List Char) (L : List (List Char)),
      splitSep elem.data = s :: L → 3 ≤ s.length → (∀ x ∈ L, x ≠ ['.', '.']) →
      (Join [path, elem]).data = pre ++ s ++ appended L := by
  -- the element starts with a character that is not a separator
  have hhead : ∀ (elem : String) (s : List Char) (L : List (List Char)),
      splitSep elem.data = s :: L → 3 ≤ s.length →
      ∃ c t, elem.data = c :: t ∧ IsPathSeparator c = false := by
    intro elem s L hsplit hs
    rw [splitSep_eq] at hsplit
    simp only [List.cons.injEq] at hsplit
    cases hd : elem.data with
    | nil => rw [hd] at hsplit; rw [← hsplit.1] at hs; simp at hs
    | cons c t =>
      refine ⟨c, t, rfl, ?_⟩
      by_contra hc
      simp only [Bool.not_eq_false] at hc
      rw [hd] at hsplit
      rw [← hsplit.1] at hs
      simp [List.takeWhile, hc] at hs
  by_cases hpath : path = ""
  · refine ⟨[], fun elem s L hsplit hs hL => ?_⟩
    obtain ⟨c, t, hd, hc⟩ := hhead elem s L hsplit hs
    have hne : elem ≠ "" := by
      intro h
      rw [h] at hd
      simp at hd
    have : Join [path, elem] = Clean elem := by
      simp [Join, hpath, hne, String.intercalate, String.intercalate.go]
    rw [this, Clean_data elem c t hd, cleanChars_eq, ← hd, hsplit, hc]
    simp only [List.foldl_cons, cleanInit, Bool.false_eq_true, if_false]
    rw [cleanStep_real _ _ _ _ hs]
    simp only [List.length_nil, Bool.false_and, Bool.not_false, Bool.true_and, bne_self_eq_false,
      Bool.or_self, Bool.false_eq_true, if_false, List.nil_append]
    rw [foldl_no_dotdot _ _ _ _ hL (by omega)]
    have : (s ++ appended L).length ≠ 0 := by
      simp only [List.length_append]; omega
    simp only [this, if_false, List.nil_append]
  · cases hpd : path.data with
    | nil => exact absurd (String.ext hpd) hpath
    | cons c0 t0 =>
      refine ⟨(if IsPathSeparator c0 &&
          ((splitSep (c0 :: t0)).foldl (cleanStep (IsPathSeparator c0))
            (cleanInit (IsPathSeparator c0))).1.length != 1 ||
          !IsPathSeparator c0 &&
          ((splitSep (c0 :: t0)).foldl (cleanStep (IsPathSeparator c0))
            (cleanInit (IsPathSeparator c0))).1.length != 0
        then ((splitSep (c0 :: t0)).foldl (cleanStep (IsPathSeparator c0))
            (cleanInit (IsPathSeparator c0))).1 ++ ['/']
        else ((splitSep (c0 :: t0)).foldl (cleanStep (IsPathSeparator c0))
            (cleanInit (IsPathSeparator c0))).1), fun elem s L hsplit hs hL => ?_⟩
      have hj : Join [path, elem] = Clean (path ++ "/" ++ elem) := by
        simp [Join, hpath, String.intercalate, String.intercalate.go]
      have hdata : (path ++ "/" ++ elem).data = c0 :: (t0 ++ '/' :: elem.data) := by
        simp [String.data_append, hpd]
      rw [hj, Clean_data _ c0 _ hdata, cleanChars_eq]
      rw [show c0 :: (t0 ++ '/' :: elem.data) = (c0 :: t0) ++ '/' :: elem.data by simp,
        splitSep_append_sep, List.foldl_append, hsplit, List.foldl_cons]
      generalize (splitSep (c0 :: t0)).foldl (cleanStep (IsPathSeparator c0))
        (cleanInit (IsPathSeparator c0)) = st
      obtain ⟨o, dd⟩ := st
      rw [cleanStep_real _ _ _ _ hs, foldl_no_dotdot _ _ _ _ hL (by simp; omega)]
      have : ((if (IsPathSeparator c0 && o.length != 1 || !IsPathSeparator c0 && o.length != 0) = true
          then o ++ ['/'] else o) ++ s ++ appended L).length ≠ 0 := by
        simp only [List.length_append]; omega
      simp only [this, if_false]

end filepath

/-! ## The derived file paths -/

/-- A directory joined with two different elements without separator gives two different
paths. -/
theorem filepath.Join_ne_of_no_sep (path e1 e2 : String)
    (h1 : ∀ c ∈ e1.data, filepath.IsPathSeparator c = false)
    (h2 : ∀ c ∈ e2.data, filepath.IsPathSeparator c = false)
    (l1 : 3 ≤ e1.data.length) (l2 : 3 ≤ e2.data.length) (hne : e1 ≠ e2) :
    filepath.Join [path, e1] ≠ filepath.Join [path, e2] := by
  obtain ⟨pre, hpre⟩ := filepath.Join_data path
  intro h
  have d1 := hpre e1 e1.data [] (filepath.splitSep_of_no_sep _ h1) l1 (by simp)
  have d2 := hpre e2 e2.data [] (filepath.splitSep_of_no_sep _ h2) l2 (by simp)
  rw [h, d2] at d1
  simp only [filepath.appended, List.flatMap_nil, List.append_nil, List.append_cancel_left_eq] at d1
  exact hne (String.ext d1.symm)

/-- The file name made of one of the three prefixes, a name without separator and `.log`
has no separator and at least three characters. -/
theorem logElem_no_sep (p name : String) (hp : p ∈ ["info_", "error_", "debug_"])
    (hname : '/' ∉ name.data) :
    (∀ c ∈ (p ++ name ++ ".log").data, filepath.IsPathSeparator c = false) ∧
      3 ≤ (p ++ name ++ ".log").data.length := by
  have hn : ∀ c ∈ name.data, filepath.IsPathSeparator c = false := by
    intro c hc
    simp only [filepath.IsPathSeparator, beq_eq_false_iff_ne, ne_eq]
    intro h
    exact hname (h ▸ hc)
  simp only [List.mem_cons, List.mem_singleton, List.not_mem_nil, or_false] at hp
  rcases hp with rfl | rfl | rfl
  all_goals
    constructor
    · intro c hc
      simp only [String.data_append, List.mem_append] at hc
      rcases hc with (hc | hc) | hc
      · revert c; decide
      · exact hn c hc
      · revert c; decide
    · simp only [String.data_append, List.length_append, List.length_cons, List.length_nil]
      omega

/-- Two file names made of a prefix, a name and `.log` are equal only for the same prefix and
the same name. -/
theorem logElem_inj (p1 p2 n1 n2 : String) (hp1 : p1 ∈ ["info_", "error_", "debug_"])
    (hp2 : p2 ∈ ["info_", "error_", "debug_"])
    (h : p1 ++ n1 ++ ".log" = p2 ++ n2 ++ ".log") : p1 = p2 ∧ n1 = n2 := by
  have hd := congrArg String.data h
  simp only [String.data_append, List.append_cancel_right_eq] at hd
  simp only [List.mem_cons, List.mem_singleton, List.not_mem_nil, or_false] at hp1 hp2
  rcases hp1 with rfl | rfl | rfl <;> rcases hp2 with rfl | rfl | rfl
  all_goals first
    | exact ⟨rfl, String.ext (List.append_cancel_left hd)⟩
    | (exfalso; revert hd; simp)

/-- C5, as the code has it. For every directory path and every two different logical names
that contain no path separator, the six file paths of file-mode construction (info, error and
debug for each name) are pairwise distinct. -/
theorem two_names_six_distinct_paths (path n1 n2 : String) (h1 : '/' ∉ n1.data)
    (h2 : '/' ∉ n2.data) (hne : n1 ≠ n2) :
    List.Nodup
      [filepath.Join [path, "info_" ++ n1 ++ ".log"],
       filepath.Join [path, "error_" ++ n1 ++ ".log"],
       filepath.Join [path, "debug_" ++ n1 ++ ".log"],
       filepath.Join [path, "info_" ++ n2 ++ ".log"],
       filepath.Join [path, "error_" ++ n2 ++ ".log"],
       filepath.Join [path, "debug_" ++ n2 ++ ".log"]] := by
  have key : ∀ p1 ∈ ["info_", "error_", "debug_"], ∀ p2 ∈ ["info_", "error_", "debug_"],
      ∀ a b : String, '/' ∉ a.data → '/' ∉ b.data → (p1 ≠ p2 ∨ a ≠ b) →
      filepath.Join [path, p1 ++ a ++ ".log"] ≠ filepath.Join [path, p2 ++ b ++ ".log"] := by
    intro p1 hp1 p2 hp2 a b ha hb hab
    obtain ⟨s1, l1⟩ := logElem_no_sep p1 a hp1 ha
    obtain ⟨s2, l2⟩ := logElem_no_sep p2 b hp2 hb
    refine filepath.Join_ne_of_no_sep path _ _ s1 s2 l1 l2 (fun h => ?_)
    obtain ⟨e1, e2⟩ := logElem_inj p1 p2 a b hp1 hp2 h
    rcases hab with hab | hab
    · exact hab e1
    · exact hab e2
  have hne' : n2 ≠ n1 := fun h => hne h.symm
  simp only [List.nodup_cons, List.mem_cons, List.mem_singleton, List.not_mem_nil, or_false,
    not_or, List.nodup_nil, and_true, not_false_eq_true]
  refine ⟨⟨?_, ?_, ?_, ?_, ?_⟩, ⟨?_, ?_, ?_, ?_⟩, ⟨?_, ?_, ?_⟩, ⟨?_, ?_⟩, ?_⟩
  all_goals
    apply key _ (by simp) _ (by simp) _ _ (by assumption) (by assumption)
    first
      | exact Or.inr hne
      | exact Or.inr hne'
      | exact Or.inl (by decide)

/-- C5 fails as stated: the names `a/b` and `a//b` differ, and on the directory `logs` both
have the info file `logs/info_a/b.log`. -/
theorem two_names_share_a_path :
    ¬ ∀ (path n1 n2 : String), n1 ≠ n2 →
      List.Nodup
        [filepath.Join [path, "info_" ++ n1 ++ ".log"],
         filepath.Join [path, "error_" ++ n1 ++ ".log"],
         filepath.Join [path, "debug_" ++ n1 ++ ".log"],
         filepath.Join [path, "info_" ++ n2 ++ ".log"],
         filepath.Join [path, "error_" ++ n2 ++ ".log"],
         filepath.Join [path, "debug_" ++ n2 ++ ".log"]] := by
  intro h
  have := h "logs" "a/b" "a//b" (by decide)
  revert this
  decide

/-- C9, as the code has it. For every directory path and every logical name none of whose
path elements is `..`, the info, error and debug paths of one file-mode facade are pairwise
distinct; the name may contain path separators. -/
theorem one_name_three_distinct_paths (path name : String)
    (hname : ['.', '.'] ∉ filepath.splitSep name.data) :
    filepath.Join [path, "info_" ++ name ++ ".log"] ≠
        filepath.Join [path, "error_" ++ name ++ ".log"] ∧
      filepath.Join [path, "info_" ++ name ++ ".log"] ≠
        filepath.Join [path, "debug_" ++ name ++ ".log"] ∧
      filepath.Join [path, "error_" ++ name ++ ".log"] ≠
        filepath.Join [path, "debug_" ++ name ++ ".log"] := by
  obtain ⟨pre, hpre⟩ := filepath.Join_data path
  have he : ∀ c ∈ ".log".data, filepath.IsPathSeparator c = false := by decide
  obtain ⟨init, last, hs1, hs2⟩ := filepath.splitSep_append_right name.data ".log".data he
  have hall : ∀ x ∈ filepath.splitSep (name.data ++ ".log".data), x ≠ ['.', '.'] := by
    intro x hx
    rw [hs2, List.mem_append, List.mem_singleton] at hx
    rcases hx with hx | hx
    · intro h
      apply hname
      rw [hs1, ← h]
      exact List.mem_append_left _ hx
    · intro h
      have := congrArg List.length (hx ▸ h)
      simp at this
  cases hsp : filepath.splitSep (name.data ++ ".log".data) with
  | nil => exact absurd hsp (filepath.splitSep_ne_nil _)
  | cons s tl =>
    have htl : ∀ x ∈ tl, x ≠ ['.', '.'] := fun x hx =>
      hall x (by rw [hsp]; exact List.mem_cons_of_mem _ hx)
    have key : ∀ p : String, p ∈ ["info_", "error_", "debug_"] →
        (filepath.Join [path, p ++ name ++ ".log"]).data =
          pre ++ (p.data ++ s) ++ filepath.appended tl := by
      intro p hp
      have hp3 : (∀ c ∈ p.data, filepath.IsPathSeparator c = false) ∧ 3 ≤ p.data.length := by
        simp only [List.mem_cons, List.mem_singleton, List.not_mem_nil, or_false] at hp
        rcases hp with rfl | rfl | rfl <;> decide
      refine hpre _ _ _ ?_ (by simp only [List.length_append]; omega) htl
      rw [show (p ++ name ++ ".log").data = p.data ++ (name.data ++ ".log".data) by
        simp [String.data_append]]
      exact filepath.splitSep_append_left _ _ _ _ hp3.1 hsp
    have ne : ∀ p1 ∈ ["info_", "error_", "debug_"], ∀ p2 ∈ ["info_", "error_", "debug_"],
        p1 ≠ p2 →
        filepath.Join [path, p1 ++ name ++ ".log"] ≠ filepath.Join [path, p2 ++ name ++ ".log"] := by
      intro p1 hp1 p2 hp2 hp h
      have d := key p1 hp1
      rw [h, key p2 hp2] at d
      simp only [List.append_cancel_right_eq, List.append_cancel_left_eq] at d
      exact hp (String.ext d.symm)
    exact ⟨ne _ (by simp) _ (by simp) (by decide), ne _ (by simp) _ (by simp) (by decide),
      ne _ (by simp) _ (by simp) (by decide)⟩

/-- C9 fails as stated: with the directory `logs` and the name `/../x` the info and the error
path are both `logs/x.log`. -/
theorem one_name_paths_coincide :
    ¬ ∀ (path name : String),
      filepath.Join [path, "info_" ++ name ++ ".log"] ≠
          filepath.Join [path, "error_" ++ name ++ ".log"] ∧
        filepath.Join [path, "info_" ++ name ++ ".log"] ≠
          filepath.Join [path, "debug_" ++ name ++ ".log"] ∧
        filepath.Join [path, "error_" ++ name ++ ".log"] ≠
          filepath.Join [path, "debug_" ++ name ++ ".log"] := by
  intro h
  have := (h "logs" "/../x").1
  revert this
  decide

/-! ## Concrete runs -/

/-- C1 on a run: on the empty filesystem, file-mode construction with `logs` and `app`
succeeds; `Info`, `Error` and `Debug` each write one record, to the file of their level, and a
warn-level record is written nowhere. -/
theorem file_mode_exact_level_sinks_witness :
    ∃ z fs1, NewZapLogger emptyFS "logs" "app" false = ((some z, none), fs1) ∧
      z.Info "started" [] =
        [⟨zapcore.WriteSyncer.file ⟨"logs/info_app.log"⟩, ⟨zapcore.InfoLevel, "started", []⟩⟩] ∧
      z.Error "failed" [] =
        [⟨zapcore.WriteSyncer.file ⟨"logs/error_app.log"⟩, ⟨zapcore.ErrorLevel, "failed", []⟩⟩] ∧
      z.Debug "step" [] =
        [⟨zapcore.WriteSyncer.file ⟨"logs/debug_app.log"⟩, ⟨zapcore.DebugLevel, "step", []⟩⟩] ∧
      z.logger.log zapcore.WarnLevel "careful" [] = [] := by
  obtain ⟨z, fs1, h⟩ :
      ∃ z fs1, NewZapLogger emptyFS "logs" "app" false = ((some z, none), fs1) := ⟨_, _, rfl⟩
  obtain ⟨ic, ec, dc, -, hi, he, hd, -, -, -, hI, hE, hD, hO⟩ :=
    file_mode_exact_level_sinks emptyFS fs1 "logs" "app" z h
  refine ⟨z, fs1, h, ?_, ?_, ?_, hO _ _ _ (by decide) (by decide) (by decide)⟩
  · rw [hI, hi]; decide
  · rw [hE, he]; decide
  · rw [hD, hd]; decide

/-- C2 on a run: on the empty filesystem, stdout-mode construction succeeds; `Debug` writes
nothing, `Info` and `Error` write to standard output, and so does a warn-level record. -/
theorem stdout_mode_threshold_info_witness :
    ∃ z fs1, NewZapLogger emptyFS "logs" "app" true = ((some z, none), fs1) ∧
      z.Debug "step" [] = [] ∧
      z.Info "started" [] =
        [⟨zapcore.WriteSyncer.stdout, ⟨zapcore.InfoLevel, "started", []⟩⟩] ∧
      z.Error "failed" [] =
        [⟨zapcore.WriteSyncer.stdout, ⟨zapcore.ErrorLevel, "failed", []⟩⟩] ∧
      z.logger.log zapcore.WarnLevel "careful" [] =
        [⟨zapcore.WriteSyncer.stdout, ⟨zapcore.WarnLevel, "careful", []⟩⟩] := by
  obtain ⟨z, fs1, h⟩ :
      ∃ z fs1, NewZapLogger emptyFS "logs" "app" true = ((some z, none), fs1) := ⟨_, _, rfl⟩
  obtain ⟨c, -, -, -, hL, hD, hI, hE⟩ :=
    stdout_mode_threshold_info emptyFS fs1 "logs" "app" z h
  refine ⟨z, fs1, h, hD _ _, hI _ _, hE _ _, ?_⟩
  rw [hL]; decide

/-- C10 on a run: on a facade constructed in stdout mode on the empty filesystem,
`Println("a", "b")` and a `Printf` write nothing. -/
theorem stdout_mode_println_printf_write_nothing_witness :
    ∃ z fs1, NewZapLogger emptyFS "logs" "app" true = ((some z, none), fs1) ∧
      z.Println [fmt.Value.str "a", fmt.Value.str "b"] = [] ∧
      z.Printf (fun format _ => format) "ready" [] = [] := by
  obtain ⟨z, fs1, h⟩ :
      ∃ z fs1, NewZapLogger emptyFS "logs" "app" true = ((some z, none), fs1) := ⟨_, _, rfl⟩
  have w := stdout_mode_println_printf_write_nothing emptyFS fs1 "logs" "app" z h
  exact ⟨z, fs1, h, w.1 _, w.2 _ _ _⟩

/-- C6 on a run: on a file-mode facade for `logs` and `app`, `Printf` writes one debug record
to `logs/debug_app.log`, with the twice-formatted message. -/
theorem printf_emits_one_debug_record_formatted_twice_witness :
    ∃ z fs1, NewZapLogger emptyFS "logs" "app" false = ((some z, none), fs1) ∧
      z.Printf (fun format _ => format ++ "!") "ready" [fmt.Value.int 1] =
        [⟨zapcore.WriteSyncer.file ⟨"logs/debug_app.log"⟩,
          ⟨zapcore.DebugLevel, "ready!!", []⟩⟩] := by
  obtain ⟨z, fs1, h⟩ :
      ∃ z fs1, NewZapLogger emptyFS "logs" "app" false = ((some z, none), fs1) := ⟨_, _, rfl⟩
  refine ⟨z, fs1, h, ?_⟩
  rw [(printf_emits_one_debug_record_formatted_twice (fun format _ => format ++ "!") "ready"
    [fmt.Value.int 1]).2 emptyFS fs1 "logs" "app" z h]
  decide

/-- C7 on a run: on a file-mode facade for `logs` and `app`, `Println("a", "b")` writes one
debug record to `logs/debug_app.log`, with the message `a b` and a newline. -/
theorem println_emits_one_debug_record_witness :
    ∃ z fs1, NewZapLogger emptyFS "logs" "app" false = ((some z, none), fs1) ∧
      z.Println [fmt.Value.str "a", fmt.Value.str "b"] =
        [⟨zapcore.WriteSyncer.file ⟨"logs/debug_app.log"⟩,
          ⟨zapcore.DebugLevel, "a b\n", []⟩⟩] := by
  obtain ⟨z, fs1, h⟩ :
      ∃ z fs1, NewZapLogger emptyFS "logs" "app" false = ((some z, none), fs1) := ⟨_, _, rfl⟩
  refine ⟨z, fs1, h, ?_⟩
  rw [(println_emits_one_debug_record [fmt.Value.str "a", fmt.Value.str "b"]).2.1
    emptyFS fs1 "logs" "app" z h]
  decide

/-- C4 on a run: when `logs/error_app.log` is a directory, the directory step and the open of
the info file succeed, the open of the error file fails, and construction returns that error
and no facade. -/
theorem file_mode_error_is_first_failing_step_witness :
    (NewZapLogger ((emptyFS.set "logs" (os.Node.dir 0o755)).set "logs/error_app.log"
        (os.Node.dir 0o755)) "logs" "app" false).1.2 =
      some (GoError.pathError ⟨"open", "logs/error_app.log", os.Errno.EISDIR⟩) ∧
    (NewZapLogger ((emptyFS.set "logs" (os.Node.dir 0o755)).set "logs/error_app.log"
        (os.Node.dir 0o755)) "logs" "app" false).1.1.isSome = false := by
  have w := file_mode_error_is_first_failing_step
    ((emptyFS.set "logs" (os.Node.dir 0o755)).set "logs/error_app.log" (os.Node.dir 0o755))
    "logs" "app"
  simp only [] at w
  obtain ⟨w1, -, w3⟩ := w
  rw [w3, w1]
  constructor <;> decide

/-- C8 on a run: the info file exists with the contents `old line`, the other two files are
absent; after file-mode construction the info file still reads `old line` and the error and
debug files exist and are empty. -/
theorem file_mode_keeps_existing_contents_witness :
    ∃ z fs1,
      NewZapLogger ((emptyFS.set "logs" (os.Node.dir 0o755)).set "logs/info_app.log"
        (os.Node.file 0o644 "old line")) "logs" "app" false = ((some z, none), fs1) ∧
      os.ReadFile fs1 "logs/info_app.log" = some "old line" ∧
      os.ReadFile fs1 "logs/error_app.log" = some "" ∧
      os.ReadFile fs1 "logs/debug_app.log" = some "" := by
  obtain ⟨z, fs1, h⟩ : ∃ z fs1,
      NewZapLogger ((emptyFS.set "logs" (os.Node.dir 0o755)).set "logs/info_app.log"
        (os.Node.file 0o644 "old line")) "logs" "app" false = ((some z, none), fs1) :=
    ⟨_, _, rfl⟩
  have w := file_mode_keeps_existing_contents _ fs1 "logs" "app" z h
  have e1 : filepath.Join ["logs", "info_" ++ "app" ++ ".log"] = "logs/info_app.log" := by decide
  have e2 : filepath.Join ["logs", "error_" ++ "app" ++ ".log"] = "logs/error_app.log" := by
    decide
  have e3 : filepath.Join ["logs", "debug_" ++ "app" ++ ".log"] = "logs/debug_app.log" := by
    decide
  refine ⟨z, fs1, h, ?_, ?_, ?_⟩
  · rw [← e1, w _ (by simp)]; decide
  · rw [← e2, w _ (by simp)]; decide
  · rw [← e3, w _ (by simp)]; decide

/-- C5 on a run: for the directory `logs` and the names `app` and `web` the six paths are
pairwise distinct. -/
theorem two_names_six_distinct_paths_witness :
    '/' ∉ "app".data ∧ '/' ∉ "web".data ∧ "app" ≠ "web" ∧
    List.Nodup
      [filepath.Join ["logs", "info_" ++ "app" ++ ".log"],
       filepath.Join ["logs", "error_" ++ "app" ++ ".log"],
       filepath.Join ["logs", "debug_" ++ "app" ++ ".log"],
       filepath.Join ["logs", "info_" ++ "web" ++ ".log"],
       filepath.Join ["logs", "error_" ++ "web" ++ ".log"],
       filepath.Join ["logs", "debug_" ++ "web" ++ ".log"]] :=
  ⟨by decide, by decide, by decide,
    two_names_six_distinct_paths "logs" "app" "web" (by decide) (by decide) (by decide)⟩

/-- C9 on a run: the name `svc/../api` has the element `..` and is outside the theorem; the
name `svc/api` has a separator and no `..` element, and its three paths are distinct. -/
theorem one_name_three_distinct_paths_witness :
    ['.', '.'] ∉ filepath.splitSep "svc/api".data ∧
    filepath.Join ["logs", "info_" ++ "svc/api" ++ ".log"] ≠
        filepath.Join ["logs", "error_" ++ "svc/api" ++ ".log"] ∧
      filepath.Join ["logs", "info_" ++ "svc/api" ++ ".log"] ≠
        filepath.Join ["logs", "debug_" ++ "svc/api" ++ ".log"] ∧
      filepath.Join ["logs", "error_" ++ "svc/api" ++ ".log"] ≠
        filepath.Join ["logs", "debug_" ++ "svc/api" ++ ".log"] :=
  ⟨by decide, one_name_three_distinct_paths "logs" "svc/api" (by decide)⟩
